import Mathlib

/-!
Verification of the bounded-concurrency TeraBox transfer pipeline
(`src/modules/custom_modules/`: `dl_terabox.py`, `tbscraper.py`,
`terabox.py`).

Shallow embedding: every definition below is translated from the Python
source named in its doc comment.  Network and platform I/O (aiohttp,
Telegram send) are modelled as oracle parameters; machine state (queues,
semaphore, the staging filesystem) is modelled explicitly.
-/

namespace OpenTg

/-! ## DedupStore (tbscraper.py) -/

/-- tbscraper.py lines 33-35: `normalize_link(link) = link.rstrip("/").lower()`.
Strips every trailing `/`, then lower-cases (ASCII case map, as in
`Char.toLower`). -/
def normalize_link (s : String) : String :=
  ⟨((s.data.reverse.dropWhile (fun c => c == '/')).reverse).map Char.toLower⟩

/-- Result shape of tbscraper.py `add_links_to_db` (lines 59-63): the
returned dict with keys `added`, `duplicates_skipped` and `total`, plus
the stored link list that `save_all_links` persists (line 57). -/
structure AddResult where
  links : List String
  added : Nat
  duplicates_skipped : Nat
  total : Nat
  deriving DecidableEq, Repr

/-- tbscraper.py lines 48-55: the `for link in new_links` loop.  `links` is
`existing_links` (appended in place), `seen` is `existing_normalized`
(a set; only membership is used, so a list model is faithful). -/
def addLinksLoop : List String → List String → List String → Nat → Nat →
    List String × List String × Nat × Nat
  | [], links, seen, a, s => (links, seen, a, s)
  | l :: rest, links, seen, a, s =>
    if normalize_link l ∈ seen then
      addLinksLoop rest links seen a (s + 1)
    else
      addLinksLoop rest (links ++ [l]) (normalize_link l :: seen) (a + 1) s

/-- tbscraper.py lines 37-63: `add_links_to_db(new_links)` with the prior
store contents (`get_all_links()`) made an explicit argument `store`. -/
def add_links_to_db (store : List String) (new_links : List String) : AddResult :=
  let seen := store.map normalize_link
  let r := addLinksLoop new_links store seen 0 0
  ⟨r.1, r.2.2.1, r.2.2.2, r.1.length⟩

/-- First-wins filter describing which of the incoming links survive the
duplicate check: a link is kept iff its normalized form is absent from
`seen` and from every earlier kept link.  Used to state what
`add_links_to_db` appends. -/
def keptNew (seen : List String) : List String → List String
  | [] => []
  | l :: rest =>
    if normalize_link l ∈ seen then keptNew seen rest
    else l :: keptNew (normalize_link l :: seen) rest

theorem keptNew_length_le (new : List String) :
    ∀ seen, (keptNew seen new).length ≤ new.length := by
  induction new with
  | nil => intro seen; simp [keptNew]
  | cons l rest ih =>
    intro seen
    simp only [keptNew]
    split
    · exact Nat.le_trans (ih _) (Nat.le_succ _)
    · simpa using ih _

theorem addLinksLoop_spec (new : List String) :
    ∀ links seen a s,
      addLinksLoop new links seen a s =
        (links ++ keptNew seen new,
         ((keptNew seen new).map normalize_link).reverse ++ seen,
         a + (keptNew seen new).length,
         s + (new.length - (keptNew seen new).length)) := by
  induction new with
  | nil => intro links seen a s; simp [addLinksLoop, keptNew]
  | cons l rest ih =>
    intro links seen a s
    by_cases h : normalize_link l ∈ seen
    · have hstep : addLinksLoop (l :: rest) links seen a s =
          addLinksLoop rest links seen a (s + 1) := by
        simp [addLinksLoop, h]
      rw [hstep, ih]
      have hlen := keptNew_length_le rest seen
      simp only [keptNew, if_pos h, Prod.mk.injEq, List.length_cons]
      exact ⟨trivial, trivial, trivial, by omega⟩
    · have hstep : addLinksLoop (l :: rest) links seen a s =
          addLinksLoop rest (links ++ [l]) (normalize_link l :: seen) (a + 1) s := by
        simp [addLinksLoop, h]
      rw [hstep, ih]
      have hlen := keptNew_length_le rest (normalize_link l :: seen)
      simp only [keptNew, if_neg h, Prod.mk.injEq, List.length_cons, List.map_cons,
        List.reverse_cons, List.append_assoc]
      refine ⟨by simp, by simp, by omega, by omega⟩

theorem keptNew_not_mem_seen (new : List String) :
    ∀ seen l, l ∈ keptNew seen new → normalize_link l ∉ seen := by
  induction new with
  | nil => intro seen l h; simp [keptNew] at h
  | cons x rest ih =>
    intro seen l h
    simp only [keptNew] at h
    split at h
    · exact ih _ _ h
    · rcases List.mem_cons.mp h with h | h
      · subst h; assumption
      · have := ih _ _ h
        intro hc
        exact this (List.mem_cons_of_mem _ hc)

theorem keptNew_nodup_norm (new : List String) :
    ∀ seen, ((keptNew seen new).map normalize_link).Nodup := by
  induction new with
  | nil => intro seen; simp [keptNew]
  | cons x rest ih =>
    intro seen
    simp only [keptNew]
    split
    · exact ih _
    · refine List.nodup_cons.mpr ⟨?_, ih _⟩
      intro hmem
      rcases List.mem_map.mp hmem with ⟨l, hl, hnorm⟩
      have := keptNew_not_mem_seen rest _ _ hl
      exact this (by rw [hnorm]; exact List.mem_cons_self _ _)

end OpenTg

namespace OpenTg

/-! ## Character-level facts about the ASCII lower-casing used by
`normalize_link` (Python `str.lower`, embedded as `Char.toLower`). -/

theorem char_toNat_ofNat {m : Nat} (h : m < 55296) : (Char.ofNat m).toNat = m := by
  have hv : m.isValidChar := Or.inl h
  rw [Char.ofNat, dif_pos hv]
  rfl

theorem char_toLower_idem (c : Char) : c.toLower.toLower = c.toLower := by
  by_cases h : c.toNat ≥ 65 ∧ c.toNat ≤ 90
  · have h1 : c.toLower = Char.ofNat (c.toNat + 32) := by
      simp only [Char.toLower, if_pos h]
    have h2 : (Char.ofNat (c.toNat + 32)).toNat = c.toNat + 32 :=
      char_toNat_ofNat (by omega)
    rw [h1]
    simp only [Char.toLower, h2]
    rw [if_neg (by omega)]
  · have h1 : c.toLower = c := by simp only [Char.toLower, if_neg h]
    rw [h1, h1]

theorem char_toLower_slash_iff (c : Char) : c.toLower = '/' ↔ c = '/' := by
  constructor
  · intro h
    by_cases hc : c.toNat ≥ 65 ∧ c.toNat ≤ 90
    · exfalso
      have hlow : c.toLower.toNat = c.toNat + 32 := by
        simp only [Char.toLower, if_pos hc]
        exact char_toNat_ofNat (by omega)
      rw [h] at hlow
      have h47 : ('/' : Char).toNat = 47 := rfl
      omega
    · simpa only [Char.toLower, if_neg hc] using h
  · intro h
    subst h
    decide

theorem dropWhileHeadNot {α : Type} {p : α → Bool} :
    ∀ (l : List α) (c : α) (t : List α), l.dropWhile p = c :: t → p c = false := by
  intro l
  induction l with
  | nil => intro c t h; simp [List.dropWhile] at h
  | cons x xs ih =>
    intro c t h
    rw [List.dropWhile_cons] at h
    by_cases hp : p x = true
    · rw [if_pos hp] at h
      exact ih c t h
    · rw [if_neg hp] at h
      cases h
      simpa using hp

end OpenTg

namespace OpenTg

theorem map_toLower_idem (l : List Char) :
    (l.map Char.toLower).map Char.toLower = l.map Char.toLower := by
  induction l with
  | nil => rfl
  | cons c t ih => simp [char_toLower_idem, ih]

/-- Claim C10: link normalization is idempotent — `normalize_link` applied to
an already-normalized link leaves it unchanged, so dedup keys are stable
under re-normalization (tbscraper.py lines 33-35). -/
theorem c10_normalize_link_idem (s : String) :
    normalize_link (normalize_link s) = normalize_link s := by
  unfold normalize_link
  congr 1
  show ((((((s.data.reverse.dropWhile (fun c => c == '/')).reverse).map
      Char.toLower).reverse).dropWhile (fun c => c == '/')).reverse).map Char.toLower =
    ((s.data.reverse.dropWhile (fun c => c == '/')).reverse).map Char.toLower
  generalize hr : s.data.reverse.dropWhile (fun c => c == '/') = r
  have hrev : ((r.reverse).map Char.toLower).reverse = r.map Char.toLower := by
    rw [List.map_reverse, List.reverse_reverse]
  rw [hrev]
  have hdrop : (r.map Char.toLower).dropWhile (fun c => c == '/') =
      r.map Char.toLower := by
    cases hcase : r with
    | nil => rfl
    | cons c t =>
      rw [hcase] at hr
      have hc : (c == '/') = false :=
        dropWhileHeadNot (p := fun c => c == '/') _ _ _ hr
      have hlc : (Char.toLower c == '/') = false := by
        apply Bool.eq_false_iff.mpr
        intro hcontra
        have h1 : Char.toLower c = '/' := by simpa using hcontra
        have h2 : c = '/' := (char_toLower_slash_iff c).mp h1
        simp [h2] at hc
      simp only [List.map_cons, List.dropWhile_cons, hlc]
      simp
  rw [hdrop, List.map_reverse, List.map_reverse, map_toLower_idem]

end OpenTg

namespace OpenTg

/-- Claim C6: for every list of input links and every prior store state,
`add_links_to_db` appends exactly the links kept by the first-wins filter
`keptNew` (those whose normalized form is absent from the store and from
every earlier kept link); every other incoming link is counted in
`duplicates_skipped` and the stored list is unchanged for it; the appended
links have pairwise-distinct normalized forms, none already present; and
the reported `total` equals the prior count plus the `added` count
(tbscraper.py lines 33-63). -/
theorem c6_bulk_add_dedup (store new : List String) :
    (add_links_to_db store new).links =
      store ++ keptNew (store.map normalize_link) new ∧
    (add_links_to_db store new).added =
      (keptNew (store.map normalize_link) new).length ∧
    (add_links_to_db store new).added +
      (add_links_to_db store new).duplicates_skipped = new.length ∧
    (add_links_to_db store new).total =
      store.length + (add_links_to_db store new).added ∧
    (∀ l ∈ keptNew (store.map normalize_link) new,
        normalize_link l ∉ store.map normalize_link) ∧
    ((keptNew (store.map normalize_link) new).map normalize_link).Nodup := by
  have hk := addLinksLoop_spec new store (store.map normalize_link) 0 0
  have hlen := keptNew_length_le new (store.map normalize_link)
  refine ⟨?_, ?_, ?_, ?_, ?_, keptNew_nodup_norm new _⟩
  · simp [add_links_to_db, hk]
  · simp [add_links_to_db, hk]
  · simp only [add_links_to_db, hk]
    omega
  · simp [add_links_to_db, hk]
  · intro l hl
    exact keptNew_not_mem_seen new _ _ hl

end OpenTg

namespace OpenTg

/-! ## Batch pipeline (dl_terabox.py, `bulktbdl`)

Stage A `fetcher_worker` (lines 227-249) puts exactly one item per link on
the download queue (a job dict, or a dict whose `status` starts with the
failure marker), then one `None` sentinel per downloader.  Stage B
`downloader_worker` (lines 252-301) re-emits the sentinel and exits on
`None`; otherwise it turns each queue item into exactly one upload-queue
item.  Stage C `uploader_worker` (lines 304-376) appends exactly one
result dict per upload-queue item (directly for marker-status items, in a
`finally:` block otherwise) and loops until `len(results) == links_count`.
Concurrency only permutes the order in which the 25 downloaders' outputs
reach the upload queue, so the uploader consumes some permutation of the
per-link items. -/

/-- dl_terabox.py line 23. -/
def MAX_PARALLEL : Nat := 25

/-- Outcome of `fetch_terabox_info` plus the `info.get("links")` check
(lines 230-245): either the first file entry of a successful response, or
a failure (non-200 / empty list / raised exception → a marker-status
dict). -/
inductive FetchOut where
  | ok (url : Option String) (name : String) (category : String) (size_mb : Nat)
  | failed (msg : String)
  deriving DecidableEq

/-- An item on the download queue: lines 234-241 (job dict) or
lines 243-245 (failure dict, `status` starting with the marker). -/
inductive QItem where
  | job (link : String) (url : Option String) (name : String)
      (category : String) (size_mb : Nat)
  | fetchFail (link : String) (status : String)
  deriving DecidableEq

/-- dl_terabox.py lines 229-245: the fetcher body for one link — exactly
one queue item per link. -/
def fetcher_item (fetch : String → FetchOut) (link : String) : QItem :=
  match fetch link with
  | .ok url name cat sz => .job link url name cat sz
  | .failed msg => .fetchFail link msg

/-- dl_terabox.py lines 227-249: the whole fetcher pass (sentinels are not
items and are omitted; they only shut the downloaders down). -/
def fetcher_worker (fetch : String → FetchOut) (links : List String) : List QItem :=
  links.map (fetcher_item fetch)

/-- Result of one `download_file_optimized` call as the downloader sees it
(lines 279-283): `ok size` when the call returned success and the file
exists with nonzero size, `failed` otherwise, `errored` when the body
raised. -/
inductive DlRes where
  | ok (sizeBytes : Nat)
  | failed
  | errored (msg : String)
  deriving DecidableEq

/-- An item on the upload queue: a passed-through failure dict
(line 264), a download-failure dict (lines 284, 298), or a
ready-for-upload dict (lines 287-295). -/
inductive UItem where
  | passthrough (link : String) (status : String)
  | dlFail (link : String) (status : String)
  | ready (link : String) (name : String) (path : String)
      (category : String) (sizeBytes : Nat)
  deriving DecidableEq

/-- dl_terabox.py lines 255-301: the downloader body for one non-sentinel
queue item — exactly one upload-queue item per input item.  Marker-status
items (`item.get("status","").startswith`-check, line 263) pass through;
job items produce a success or failure dict. -/
def downloader_item (dl : QItem → DlRes) (outputDir : String) (item : QItem) : UItem :=
  match item with
  | .fetchFail link status => .passthrough link status
  | .job link _ name cat _ =>
    match dl item with
    | .ok size => .ready link name (outputDir ++ "/" ++ name) cat size
    | .failed => .dlFail link "download failed"
    | .errored msg => .dlFail link ("download error: " ++ msg)

/-- A terminal record appended to `results` (lines 338, 374). -/
structure ResultRec where
  link : String
  status : String
  deriving DecidableEq

/-- dl_terabox.py lines 333-376: what one upload-queue item contributes to
`results` — marker-status items are appended unchanged; ready items are
uploaded (send may fail) and appended in the `finally:` block. -/
def uploader_result (up : UItem → Bool) (item : UItem) : ResultRec :=
  match item with
  | .passthrough link status => ⟨link, status⟩
  | .dlFail link status => ⟨link, status⟩
  | .ready link _ _ _ _ =>
    if up item then ⟨link, "uploaded"⟩ else ⟨link, "upload failed"⟩

/-- dl_terabox.py lines 309-376: the uploader loop — guarded by
`len(results) < links_count`, it appends exactly one result per consumed
item (timeouts append nothing). -/
def uploader_worker (up : UItem → Bool) (links_count : Nat) :
    List UItem → List ResultRec → List ResultRec
  | [], results => results
  | item :: rest, results =>
    if results.length < links_count then
      uploader_worker up links_count rest (results ++ [uploader_result up item])
    else results

theorem uploader_worker_length (up : UItem → Bool) (n : Nat) :
    ∀ (items : List UItem) (results : List ResultRec),
      results.length + items.length ≤ n →
      (uploader_worker up n items results).length = results.length + items.length := by
  intro items
  induction items with
  | nil => intro results h; simp [uploader_worker]
  | cons item rest ih =>
    intro results h
    have hlt : results.length < n := by
      simp only [List.length_cons] at h
      omega
    have hstep : uploader_worker up n (item :: rest) results =
        uploader_worker up n rest (results ++ [uploader_result up item]) := by
      simp [uploader_worker, hlt]
    rw [hstep]
    have hle : (results ++ [uploader_result up item]).length + rest.length ≤ n := by
      simp only [List.length_append, List.length_cons, List.length_nil] at h ⊢
      omega
    rw [ih _ hle]
    simp only [List.length_append, List.length_cons, List.length_nil]
    omega

/-- Claim C1: over any batch of submitted links, any fetch / download /
upload behaviour, and any interleaving of the 25 downloaders' outputs
(`hperm`), the uploader terminates with exactly one result record per
submitted link: `len(results) == links_count`
(dl_terabox.py lines 227-249, 252-301, 304-376, 409-434). -/
theorem c1_pipeline_completeness (links : List String) (fetch : String → FetchOut)
    (dl : QItem → DlRes) (up : UItem → Bool) (outputDir : String)
    (upItems : List UItem)
    (hperm : upItems.Perm ((fetcher_worker fetch links).map (downloader_item dl outputDir))) :
    (uploader_worker up links.length upItems []).length = links.length := by
  have hlen : upItems.length = links.length := by
    rw [hperm.length_eq]
    simp [fetcher_worker]
  rw [uploader_worker_length up links.length upItems [] (by simp [hlen])]
  simp [hlen]

/-- Witness for C1 at a concrete two-link batch. -/
theorem c1_pipeline_completeness_witness :
    List.Perm
      ((fetcher_worker (fun _ => FetchOut.failed "fetch failed")
          ["https://terabox.com/s/a", "https://terabox.com/s/b"]).map
        (downloader_item (fun _ => DlRes.failed) "terabox_batch_downloads"))
      ((fetcher_worker (fun _ => FetchOut.failed "fetch failed")
          ["https://terabox.com/s/a", "https://terabox.com/s/b"]).map
        (downloader_item (fun _ => DlRes.failed) "terabox_batch_downloads")) ∧
    (uploader_worker (fun _ => true)
      (["https://terabox.com/s/a", "https://terabox.com/s/b"] : List String).length
      ((fetcher_worker (fun _ => FetchOut.failed "fetch failed")
          ["https://terabox.com/s/a", "https://terabox.com/s/b"]).map
        (downloader_item (fun _ => DlRes.failed) "terabox_batch_downloads")) []).length =
      (["https://terabox.com/s/a", "https://terabox.com/s/b"] : List String).length :=
  ⟨List.Perm.refl _,
   c1_pipeline_completeness _ _ _ _ _ _ (List.Perm.refl _)⟩

end OpenTg

namespace OpenTg

/-! ## Download concurrency limit (dl_terabox.py lines 270-301, 411, 424-427)

`batch_terabox_download` creates `Semaphore(MAX_PARALLEL)` and every
`download_file_optimized` call in `downloader_worker` happens inside
`async with semaphore:`.  The semaphore is modelled as its held-permit
count: an `acquire` event (a downloader entering the `async with` block,
i.e. a job entering the downloading state) only fires when a permit is
free, a `release` event (leaving the block) only when a permit is held. -/

/-- A scheduler event at the semaphore. -/
inductive SemEvent where
  | acquire
  | release
  deriving DecidableEq

/-- Semantics of `asyncio.Semaphore(n)`: `acquire` blocks unless fewer than
`n` permits are held; `release` frees one held permit. -/
def semStep (n : Nat) (active : Nat) : SemEvent → Option Nat
  | .acquire => if active < n then some (active + 1) else none
  | .release => if 0 < active then some (active - 1) else none

/-- Run a whole event trace from a given held-permit count; `none` means
the trace is not schedulable. -/
def semRun (n : Nat) : List SemEvent → Nat → Option Nat
  | [], active => some active
  | e :: rest, active =>
    match semStep n active e with
    | some a2 => semRun n rest a2
    | none => none

theorem semRun_le (n : Nat) :
    ∀ (evs : List SemEvent) (a0 a : Nat), a0 ≤ n →
      semRun n evs a0 = some a → a ≤ n := by
  intro evs
  induction evs with
  | nil =>
    intro a0 a h0 h
    simp [semRun] at h
    omega
  | cons e rest ih =>
    intro a0 a h0 h
    cases e with
    | acquire =>
      by_cases hlt : a0 < n
      · simp only [semRun, semStep, if_pos hlt] at h
        exact ih (a0 + 1) a (by omega) h
      · simp [semRun, semStep, hlt] at h
    | release =>
      by_cases hpos : 0 < a0
      · simp only [semRun, semStep, if_pos hpos] at h
        exact ih (a0 - 1) a (by omega) h
      · simp [semRun, semStep, hpos] at h

/-- Claim C2: in every schedulable trace of semaphore events starting from
the fresh `Semaphore(MAX_PARALLEL)` of `batch_terabox_download`
(line 411), the number of downloaders simultaneously inside the
`async with semaphore:` block — i.e. the number of jobs in the downloading
state — never exceeds `MAX_PARALLEL` (= 25).  Every intermediate point of
a run is the final state of the corresponding prefix trace, so the bound
holds at every point of the batch. -/
theorem c2_download_concurrency_bound (evs : List SemEvent) (active : Nat)
    (h : semRun MAX_PARALLEL evs 0 = some active) :
    active ≤ MAX_PARALLEL :=
  semRun_le MAX_PARALLEL evs 0 active (Nat.zero_le _) h

/-- Witness for C2 on a concrete schedulable trace. -/
theorem c2_download_concurrency_bound_witness :
    semRun MAX_PARALLEL [SemEvent.acquire, SemEvent.acquire, SemEvent.release] 0 =
      some 1 ∧ 1 ≤ MAX_PARALLEL :=
  ⟨by decide, c2_download_concurrency_bound
    [SemEvent.acquire, SemEvent.acquire, SemEvent.release] 1 (by decide)⟩

/-! ## Batch input parsing and job submission (dl_terabox.py lines 397-434) -/

/-- The shape of the replied JSON document (line 400): a bare array, an
object with a `links` key, or anything else. -/
inductive BatchJson where
  | arr (links : List String)
  | obj (links : List String)
  | other
  deriving DecidableEq

/-- dl_terabox.py line 400: `links = data.get("links") if isinstance(data, dict)
and "links" in data else (data if isinstance(data, list) else [])`. -/
def parse_batch_links : BatchJson → List String
  | .arr ls => ls
  | .obj ls => ls
  | .other => []

/-- dl_terabox.py lines 400-434: the batch command hands the parsed link
list to `fetcher_worker` unchanged — there is no lookup in any seen-link /
all-links store anywhere between parsing and submission. -/
def batch_submitted_links (data : BatchJson) : List String :=
  parse_batch_links data

/-- Counterexample to claim C3: a link whose normalized form is already
recorded in the DedupStore (the `alllinks` DB of tbscraper.py) is still
submitted as a transfer job by `batch_terabox_download` — the batch
pipeline never consults the store, so nothing is skipped as a duplicate. -/
theorem c3_counterexample :
    ¬ (∀ (store : List String) (data : BatchJson) (l : String),
        normalize_link l ∈ store.map normalize_link →
        l ∉ batch_submitted_links data) := by
  intro h
  exact h ["https://terabox.com/s/abc"] (.arr ["https://terabox.com/s/abc"])
    "https://terabox.com/s/abc"
    (by simp)
    (by simp [batch_submitted_links, parse_batch_links])

/-- Claim C3 as amended: the batch pipeline submits every link parsed from
the input file, regardless of any DedupStore state; duplicate skipping
exists only at import time — `add_links_to_db` never appends a link whose
normalized form is already stored (dl_terabox.py lines 397-434,
tbscraper.py lines 37-63). -/
theorem c3_amended_no_pipeline_dedup (store new : List String) (data : BatchJson)
    (l : String) (hs : normalize_link l ∈ store.map normalize_link) :
    batch_submitted_links data = parse_batch_links data ∧
    l ∉ (add_links_to_db store new).links.drop store.length := by
  refine ⟨rfl, ?_⟩
  have hk := addLinksLoop_spec new store (store.map normalize_link) 0 0
  have hlinks : (add_links_to_db store new).links =
      store ++ keptNew (store.map normalize_link) new := by
    simp [add_links_to_db, hk]
  rw [hlinks, List.drop_left]
  intro hmem
  exact keptNew_not_mem_seen new _ _ hmem hs

/-- Witness for the amended C3 at a concrete store and batch. -/
theorem c3_amended_no_pipeline_dedup_witness :
    normalize_link "https://terabox.com/s/abc" ∈
      (["https://terabox.com/s/abc/"].map normalize_link) ∧
    (batch_submitted_links (.arr ["https://terabox.com/s/abc"]) =
        parse_batch_links (.arr ["https://terabox.com/s/abc"]) ∧
      "https://terabox.com/s/abc" ∉
        (add_links_to_db ["https://terabox.com/s/abc/"]
          ["https://terabox.com/s/abc"]).links.drop
          (["https://terabox.com/s/abc/"] : List String).length) :=
  ⟨by decide, c3_amended_no_pipeline_dedup ["https://terabox.com/s/abc/"]
    ["https://terabox.com/s/abc"] (.arr ["https://terabox.com/s/abc"])
    "https://terabox.com/s/abc" (by decide)⟩

end OpenTg

namespace OpenTg

/-! ## Resumable downloader (terabox.py `download_file`, lines 352-411)

The HTTP layer is a function from the issued Range offset (`none` when no
`.part` file exists, so no `Range` header is sent) to the response: its
status, its declared `Content-Length` (0 when the header is absent, as in
`int(r.headers.get('Content-Length', 0))`), and the number of body bytes
actually delivered before the connection ended.  The `.part` file is its
byte count (`none` = absent); all writes append (`open(temp_path, 'ab')`). -/

structure HttpResponse where
  status : Nat
  contentLength : Nat
  bodyLen : Nat
  deriving DecidableEq

/-- One iteration of the retry loop (terabox.py lines 365-396):
read `resume_pos` from the `.part` file, issue the request, append the
body, verify `actual_size` against `total = Content-Length + resume_pos`,
and either rename `.part` to the final file (`ok`) or leave the grown
`.part` behind for the next attempt (`fail`). -/
inductive AttemptOut where
  | ok (finalSize : Nat) (written : Nat)
  | fail (newPart : Option Nat) (written : Nat)
  deriving DecidableEq

def downloadAttempt (part : Option Nat) (r : HttpResponse) : AttemptOut :=
  let resumePos := part.getD 0
  if r.status = 200 ∨ r.status = 206 then
    let actualSize := resumePos + r.bodyLen
    let total := r.contentLength + resumePos
    if 0 < total ∧ actualSize < total then
      AttemptOut.fail (some actualSize) r.bodyLen
    else
      AttemptOut.ok actualSize r.bodyLen
  else
    AttemptOut.fail part 0

/-- The observable effect of one `download_file` call: whether it returned
(with the final file's size), the `.part` file left on disk, the total
body bytes written, and the Range offset of every request issued. -/
structure DlRunOut where
  success : Option Nat
  part : Option Nat
  downloaded : Nat
  requests : List (Option Nat)
  deriving DecidableEq

/-- terabox.py lines 364-406: `for attempt in range(1, max_retries + 1)`,
each failed attempt backing off and retrying with the `.part` file kept. -/
def downloadLoop (server : Option Nat → HttpResponse) :
    Nat → Option Nat → DlRunOut
  | 0, part => ⟨none, part, 0, []⟩
  | n + 1, part =>
    match downloadAttempt part (server part) with
    | .ok f w => ⟨some f, none, w, [part]⟩
    | .fail p2 w =>
      let rest := downloadLoop server n p2
      ⟨rest.success, rest.part, w + rest.downloaded, part :: rest.requests⟩

/-- terabox.py lines 352-411: the whole `download_file` — on exhaustion the
`.part` file is deleted (lines 409-410) and `RuntimeError` raised
(`success = none`). -/
def download_file (server : Option Nat → HttpResponse) (part0 : Option Nat)
    (maxRetries : Nat) : DlRunOut :=
  let run := downloadLoop server maxRetries part0
  match run.success with
  | some _ => run
  | none => { run with part := none }

/-- A range-honoring server for a resource of `S` total bytes: a request at
offset `off` is answered 206 with `Content-Length = S - off` and at most
that many delivered bytes. -/
def honorsRange (server : Option Nat → HttpResponse) (S : Nat) : Prop :=
  ∀ off : Nat, (server (some off)).status = 206 ∧
    (server (some off)).contentLength = S - off ∧
    (server (some off)).bodyLen ≤ S - off


theorem downloadLoop_resume_invariant (server : Option Nat → HttpResponse)
    (S : Nat) (hserver : honorsRange server S) :
    ∀ (n p : Nat), p ≤ S →
      (downloadLoop server n (some p)).downloaded ≤ S - p ∧
      (∀ f, (downloadLoop server n (some p)).success = some f → f = S) := by
  intro n
  induction n with
  | zero =>
    intro p hp
    constructor
    · simp [downloadLoop]
    · intro f hf
      simp [downloadLoop] at hf
  | succ n ih =>
    intro p hp
    obtain ⟨hst, hcl, hbl⟩ := hserver p
    have hattempt : downloadAttempt (some p) (server (some p)) =
        (if 0 < (server (some p)).contentLength + p ∧
            p + (server (some p)).bodyLen < (server (some p)).contentLength + p then
          AttemptOut.fail (some (p + (server (some p)).bodyLen)) (server (some p)).bodyLen
        else
          AttemptOut.ok (p + (server (some p)).bodyLen) (server (some p)).bodyLen) := by
      simp only [downloadAttempt, Option.getD_some]
      rw [if_pos (Or.inr hst)]
    by_cases hcase : 0 < (server (some p)).contentLength + p ∧
        p + (server (some p)).bodyLen < (server (some p)).contentLength + p
    · have hloop : downloadLoop server (n + 1) (some p) =
          ⟨(downloadLoop server n (some (p + (server (some p)).bodyLen))).success,
           (downloadLoop server n (some (p + (server (some p)).bodyLen))).part,
           (server (some p)).bodyLen +
             (downloadLoop server n (some (p + (server (some p)).bodyLen))).downloaded,
           some p :: (downloadLoop server n (some (p + (server (some p)).bodyLen))).requests⟩ := by
        rw [downloadLoop, hattempt, if_pos hcase]
      have hple : p + (server (some p)).bodyLen ≤ S := by omega
      obtain ⟨ihd, ihs⟩ := ih (p + (server (some p)).bodyLen) hple
      refine ⟨?_, ?_⟩
      · rw [hloop]
        dsimp only
        omega
      · intro f hf
        rw [hloop] at hf
        exact ihs f hf
    · have hloop : downloadLoop server (n + 1) (some p) =
          ⟨some (p + (server (some p)).bodyLen), none,
           (server (some p)).bodyLen, [some p]⟩ := by
        rw [downloadLoop, hattempt, if_neg hcase]
      refine ⟨?_, ?_⟩
      · rw [hloop]
        dsimp only
        omega
      · intro f hf
        rw [hloop] at hf
        dsimp only at hf
        simp only [Option.some.injEq] at hf
        omega

theorem downloadLoop_first_request (server : Option Nat → HttpResponse)
    (n : Nat) (part : Option Nat) :
    (downloadLoop server (n + 1) part).requests.head? = some part := by
  cases h : downloadAttempt part (server part) with
  | ok f w =>
    rw [downloadLoop, h]
    rfl
  | fail p2 w =>
    rw [downloadLoop, h]
    rfl

/-- Claim C4: when a `.part` file of length `L` exists for a resource of
total size `S` and the server honors range requests, `download_file`
issues its first request at Range offset `L`, downloads at most `S - L`
further body bytes in total (across all retries), and whenever it
succeeds the final file's size is exactly `S`
(terabox.py lines 352-411, `max_retries = 3` as at line 352). -/
theorem c4_resume_from_offset (server : Option Nat → HttpResponse) (S L : Nat)
    (hL : L ≤ S) (hserver : honorsRange server S) :
    (download_file server (some L) 3).requests.head? = some (some L) ∧
    (download_file server (some L) 3).downloaded ≤ S - L ∧
    (∀ f, (download_file server (some L) 3).success = some f → f = S) := by
  obtain ⟨hd, hs⟩ := downloadLoop_resume_invariant server S hserver 3 L hL
  have hreq := downloadLoop_first_request server 2 (some L)
  unfold download_file
  cases hsucc : (downloadLoop server 3 (some L)).success with
  | none => simp_all
  | some f => simp_all

/-- Witness for C4: a 10-byte resource, 4 bytes already present, server
delivering the remaining 6 bytes in one response. -/
theorem c4_resume_from_offset_witness :
    4 ≤ 10 ∧
    honorsRange (fun off => ⟨206, 10 - (off.getD 0), 10 - (off.getD 0)⟩) 10 ∧
    ((download_file (fun off => ⟨206, 10 - (off.getD 0), 10 - (off.getD 0)⟩)
        (some 4) 3).requests.head? = some (some 4) ∧
      (download_file (fun off => ⟨206, 10 - (off.getD 0), 10 - (off.getD 0)⟩)
        (some 4) 3).downloaded ≤ 10 - 4 ∧
      (∀ f, (download_file (fun off => ⟨206, 10 - (off.getD 0), 10 - (off.getD 0)⟩)
        (some 4) 3).success = some f → f = 10)) :=
  ⟨by decide, fun off => ⟨rfl, rfl, Nat.le_refl _⟩,
   c4_resume_from_offset _ 10 4 (by decide) (fun off => ⟨rfl, rfl, Nat.le_refl _⟩)⟩

/-- A server whose responses always deliver fewer bytes than declared, so
the verified size never reaches the declared total. -/
def alwaysShort (server : Option Nat → HttpResponse) : Prop :=
  ∀ off : Option Nat, (server off).status = 206 ∧
    0 < (server off).contentLength ∧
    (server off).bodyLen < (server off).contentLength

theorem downloadLoop_short_never_succeeds (server : Option Nat → HttpResponse)
    (hshort : alwaysShort server) :
    ∀ (n : Nat) (part : Option Nat),
      (downloadLoop server n part).success = none := by
  intro n
  induction n with
  | zero => intro part; rfl
  | succ n ih =>
    intro part
    obtain ⟨hst, hcl, hbl⟩ := hshort part
    have hattempt : downloadAttempt part (server part) =
        AttemptOut.fail (some (part.getD 0 + (server part).bodyLen))
          (server part).bodyLen := by
      simp only [downloadAttempt]
      rw [if_pos (Or.inr hst), if_pos (by constructor <;> omega)]
    rw [downloadLoop, hattempt]
    exact ih _

/-- Claim C5: when every response is short of its declared length (the
verified byte count never reaches the declared total), `download_file`
exhausts all its attempts, raises (`success = none`), and deletes the
`.part` file — no partial file remains, whatever the starting state and
attempt budget (terabox.py lines 385-411). -/
theorem c5_exhausted_cleanup (server : Option Nat → HttpResponse)
    (part0 : Option Nat) (maxRetries : Nat) (hshort : alwaysShort server) :
    (download_file server part0 maxRetries).success = none ∧
    (download_file server part0 maxRetries).part = none := by
  have h := downloadLoop_short_never_succeeds server hshort maxRetries part0
  simp only [download_file, h]
  exact ⟨trivial, trivial⟩

/-- Witness for C5: a server declaring 10 bytes but delivering 5. -/
theorem c5_exhausted_cleanup_witness :
    alwaysShort (fun _ => ⟨206, 10, 5⟩) ∧
    ((download_file (fun _ => ⟨206, 10, 5⟩) (some 4) 3).success = none ∧
      (download_file (fun _ => ⟨206, 10, 5⟩) (some 4) 3).part = none) := by
  have hshort : alwaysShort (fun _ => (⟨206, 10, 5⟩ : HttpResponse)) := by
    intro off
    refine ⟨rfl, ?_, ?_⟩
    · show (0 : Nat) < 10
      decide
    · show (5 : Nat) < 10
      decide
  exact ⟨hshort, c5_exhausted_cleanup _ (some 4) 3 hshort⟩

end OpenTg

namespace OpenTg

/-! ## Single-file processing (terabox.py `process_single_file`, lines 472-555) -/

/-- terabox.py line 17: `MAX_SIZE = 50 * 1024 * 1024`. -/
def MAX_SIZE : Nat := 50 * 1024 * 1024

/-- terabox.py line 21: `MAX_DOWNLOAD_RETRIES = 3`. -/
def MAX_DOWNLOAD_RETRIES : Nat := 3

/-- One entry of the metadata response (`links[i]`): `name`, `size_mb`
(a JSON number, embedded as a rational) and the optional `direct_url`. -/
structure FileInfo where
  name : String
  size_mb : Rat
  direct_url : Option String
  deriving DecidableEq

/-- Python truthiness of `file_info.get('direct_url')` at line 484:
falsy when the key is absent (`None`) or the string is empty. -/
def pyTruthyStr : Option String → Bool
  | none => false
  | some s => !(s == "")

/-- Python `int()` on a rational: truncation toward zero. -/
def pyInt (q : Rat) : Int := q.num.tdiv (q.den : Int)

/-- terabox.py line 479: `size_bytes = int(size_mb * 1024 * 1024)`. -/
def size_bytes (info : FileInfo) : Int := pyInt (info.size_mb * (1024 * 1024))

/-- Terminal outcome of `process_single_file` for one descriptor. -/
inductive FileOutcome where
  | noUrl
  | oversized
  | uploaded (attempt : Nat)
  | failedPermanent
  deriving DecidableEq

/-- terabox.py lines 503-555: the retry loop over the pending attempt
numbers.  `fresh k` is the `fetch_fresh_direct_url` result at attempt `k`
(`none` = could not refresh, line 512); `ok k url` says whether
`download_file` + `upload_and_cleanup` at attempt `k` with that url ran
without raising.  The second component counts `download_file` calls
(downloads started); failure on the last pending attempt falls through to
the exhausted case, which records the permanent failure (lines 546-553). -/
def psfLoop (fresh : Nat → Option String) (ok : Nat → String → Bool) :
    List Nat → String → Nat → FileOutcome × Nat
  | [], _, dls => (.failedPermanent, dls)
  | k :: rest, url, dls =>
    if k = 1 then
      if ok k url then (.uploaded k, dls + 1) else psfLoop fresh ok rest url (dls + 1)
    else
      match fresh k with
      | none => psfLoop fresh ok rest url dls
      | some u =>
        if ok k u then (.uploaded k, dls + 1) else psfLoop fresh ok rest u (dls + 1)

/-- terabox.py lines 472-555: `process_single_file` — the `direct_url`
check (lines 484-488), the size-cap check (lines 490-495), then the
retry loop over attempts `1, 2, 3` (`range(1, MAX_DOWNLOAD_RETRIES + 1)`).
Returns the outcome and the number of downloads started. -/
def process_single_file (info : FileInfo) (fresh : Nat → Option String)
    (ok : Nat → String → Bool) : FileOutcome × Nat :=
  if !(pyTruthyStr info.direct_url) then (.noUrl, 0)
  else if size_bytes info > (MAX_SIZE : Int) then (.oversized, 0)
  else psfLoop fresh ok [1, 2, 3] (info.direct_url.getD "") 0

/-- Claim C7: a descriptor carrying a direct transfer URL whose declared
size exceeds the 50 MiB cap is recorded as oversized immediately and
terminally — no download is ever started for it and no retry attempt is
consumed, whatever the refresh and download behaviour
(terabox.py lines 490-495). -/
theorem c7_oversized_immediate (info : FileInfo) (fresh : Nat → Option String)
    (ok : Nat → String → Bool) (u : String)
    (hurl : info.direct_url = some u) (hne : u ≠ "")
    (hsize : size_bytes info > (MAX_SIZE : Int)) :
    process_single_file info fresh ok = (.oversized, 0) := by
  have htruthy : pyTruthyStr info.direct_url = true := by
    rw [hurl]
    simpa [pyTruthyStr] using hne
  simp [process_single_file, htruthy, hsize]

/-- Witness for C7: a 100 MB descriptor with a direct URL. -/
theorem c7_oversized_immediate_witness :
    (⟨"big.mp4", 100, some "http://dl/u"⟩ : FileInfo).direct_url = some "http://dl/u" ∧
    ("http://dl/u" : String) ≠ "" ∧
    size_bytes ⟨"big.mp4", 100, some "http://dl/u"⟩ > (MAX_SIZE : Int) ∧
    process_single_file ⟨"big.mp4", 100, some "http://dl/u"⟩ (fun _ => none)
      (fun _ _ => false) = (.oversized, 0) := by
  have hsize : size_bytes ⟨"big.mp4", 100, some "http://dl/u"⟩ > (MAX_SIZE : Int) := by
    unfold size_bytes pyInt MAX_SIZE
    norm_num
  exact ⟨rfl, by decide, hsize,
    c7_oversized_immediate _ (fun _ => none) (fun _ _ => false) "http://dl/u"
      rfl (by decide) hsize⟩

end OpenTg

namespace OpenTg

/-! ## Staging paths (C8) -/

/-- dl_terabox.py lines 274-275: the batch downloader's staging path is
`output_dir / item['name']` — the display name alone, no hash. -/
def downloader_staging_path (outputDir : String) (item : QItem) : Option String :=
  match item with
  | .job _ _ name _ _ => some (outputDir ++ "/" ++ name)
  | .fetchFail _ _ => none

/-- Counterexample to claim C8: two distinct concurrently-downloadable jobs
(different links and transfer URLs) that share a display name are written
to the same staging path by `downloader_worker` — the batch pipeline's
staging path is not derived from any hash of the transfer URL. -/
theorem c8_counterexample :
    QItem.job "https://terabox.com/s/a" (some "http://dl/u1") "video.mp4" "1" 10 ≠
      QItem.job "https://terabox.com/s/b" (some "http://dl/u2") "video.mp4" "1" 10 ∧
    downloader_staging_path "terabox_batch_downloads"
        (QItem.job "https://terabox.com/s/a" (some "http://dl/u1") "video.mp4" "1" 10) =
      downloader_staging_path "terabox_batch_downloads"
        (QItem.job "https://terabox.com/s/b" (some "http://dl/u2") "video.mp4" "1" 10) :=
  ⟨by decide, rfl⟩

/-- terabox.py line 497: `safe_name = "".join(c if c.isalnum() or c in "._-"
else "_" for c in name)` (ASCII `isalnum`). -/
def safe_name (name : String) : String :=
  ⟨name.data.map (fun c =>
    if c.isAlphanum || c == '.' || c == '_' || c == '-' then c else '_')⟩

/-- terabox.py line 498: the single-link bot's staging path
`/tmp/terabox_` + md5-hexdigest of the transfer URL + `_` + sanitized
name.  The md5 hex digest is abstracted as `digest` (a 32-character hex
string in the source). -/
def tmp_staging_path (digest : String → String) (url : String) (name : String) : String :=
  "/tmp/terabox_" ++ digest url ++ "_" ++ safe_name name

/-- Claim C8 as amended: only `process_single_file` (terabox.py) derives
its staging path from a hash of the transfer URL plus the sanitized name,
so two jobs whose URLs have distinct (fixed-length) digests never share a
staging path even with identical display names; the batch pipeline
(dl_terabox.py) instead uses `output_dir / name`, so same-named jobs
collide (see the counterexample). -/
theorem c8_amended_hashed_paths (digest : String → String) (u1 u2 n1 n2 : String)
    (h1 : (digest u1).length = 32) (h2 : (digest u2).length = 32)
    (hne : digest u1 ≠ digest u2) :
    tmp_staging_path digest u1 n1 ≠ tmp_staging_path digest u2 n2 := by
  intro heq
  apply hne
  have hd : "/tmp/terabox_".data ++ ((digest u1).data ++ ("_".data ++ (safe_name n1).data)) =
      "/tmp/terabox_".data ++ ((digest u2).data ++ ("_".data ++ (safe_name n2).data)) := by
    have hc := congrArg String.data heq
    simpa [tmp_staging_path, String.data_append, List.append_assoc] using hc
  have hcancel := List.append_cancel_left hd
  have hlen : (digest u1).data.length = (digest u2).data.length := by
    have e1 : (digest u1).data.length = 32 := h1
    have e2 : (digest u2).data.length = 32 := h2
    omega
  have hfin : (digest u1).data = (digest u2).data :=
    List.append_inj_left hcancel hlen
  calc digest u1 = String.mk (digest u1).data := rfl
    _ = String.mk (digest u2).data := by rw [hfin]
    _ = digest u2 := rfl

/-- Witness for the amended C8 with a concrete two-valued digest. -/
theorem c8_amended_hashed_paths_witness :
    ((fun u => if u = "http://dl/u1" then "00000000000000000000000000000000"
        else ("11111111111111111111111111111111" : String)) "http://dl/u1").length = 32 ∧
    ((fun u => if u = "http://dl/u1" then "00000000000000000000000000000000"
        else ("11111111111111111111111111111111" : String)) "http://dl/u2").length = 32 ∧
    (fun u => if u = "http://dl/u1" then "00000000000000000000000000000000"
        else ("11111111111111111111111111111111" : String)) "http://dl/u1" ≠
      (fun u => if u = "http://dl/u1" then "00000000000000000000000000000000"
        else ("11111111111111111111111111111111" : String)) "http://dl/u2" ∧
    tmp_staging_path (fun u => if u = "http://dl/u1" then "00000000000000000000000000000000"
        else ("11111111111111111111111111111111" : String)) "http://dl/u1" "video.mp4" ≠
      tmp_staging_path (fun u => if u = "http://dl/u1" then "00000000000000000000000000000000"
        else ("11111111111111111111111111111111" : String)) "http://dl/u2" "video.mp4" :=
  ⟨by decide, by decide, by decide,
   c8_amended_hashed_paths _ "http://dl/u1" "http://dl/u2" "video.mp4" "video.mp4"
     (by decide) (by decide) (by decide)⟩

end OpenTg

namespace OpenTg

/-! ## Link extraction (C9)

`TERABOX_REGEX` / `LINK_REGEX` is
`https?://[^\s]*?(?:DOMAIN1|DOMAIN2|...)\.[^\s]+` with `re.IGNORECASE`,
applied with `findall` (left-to-right, non-overlapping, leftmost match).
The backtracking engine is embedded directly: the optional `s` is tried
greedily (`https://` before `http://`), the lazy `[^\s]*?` tries the
shortest extension first, the alternation tries the domain words in
listed order, `\.` requires a literal dot, and the final `[^\s]+` takes
the maximal non-empty run of non-space characters.  `\s` is embedded as
the ASCII whitespace class. -/

def pyIsSpace (c : Char) : Bool :=
  c == ' ' || c == '\t' || c == '\n' || c == '\r' || c == '\x0b' || c == '\x0c'

def lowerEqCI (a b : Char) : Bool := a.toLower == b.toLower

def startsWithCI : List Char → List Char → Bool
  | [], _ => true
  | _ :: _, [] => false
  | p :: ps, c :: cs => lowerEqCI p c && startsWithCI ps cs

/-- dl_terabox.py lines 26-29 and terabox.py lines 51-54 (same list). -/
def teraboxDomains : List (List Char) :=
  ["terabox".data, "teraboxapp".data, "teraboxshare".data, "nephobox".data,
   "1024tera".data, "1024terabox".data, "freeterabox".data, "terasharefile".data,
   "terasharelink".data, "mirrobox".data, "momerybox".data, "teraboxlink".data]

/-- tbscraper.py lines 16-19: same list with `teraboxurl` inserted. -/
def scraperDomains : List (List Char) :=
  ["terabox".data, "teraboxapp".data, "teraboxshare".data, "nephobox".data,
   "1024tera".data, "teraboxurl".data, "1024terabox".data, "freeterabox".data,
   "terasharefile".data, "terasharelink".data, "mirrobox".data, "momerybox".data,
   "teraboxlink".data]

/-- Try `(?:d1|d2|...)\.[^\s]+` at the current position: the alternatives
in order, each followed by a literal `.` and a non-empty non-space run.
Returns the number of characters consumed. -/
def domTry : List (List Char) → List Char → Option Nat
  | [], _ => none
  | d :: rest, s =>
    if startsWithCI d s then
      match s.drop d.length with
      | '.' :: u =>
        let run := u.takeWhile (fun c => !(pyIsSpace c))
        if run.length ≥ 1 then some (d.length + 1 + run.length)
        else domTry rest s
      | _ => domTry rest s
    else domTry rest s

/-- The lazy `[^\s]*?` followed by the domain tail: try the domain here
first, else consume one non-space character and continue. -/
def lazyScan (doms : List (List Char)) : List Char → Option Nat
  | [] => domTry doms []
  | c :: rest =>
    match domTry doms (c :: rest) with
    | some n => some n
    | none =>
      if pyIsSpace c then none
      else (lazyScan doms rest).map (fun n => n + 1)

/-- Match the whole pattern at this position (length of the match). -/
def matchAt (doms : List (List Char)) (s : List Char) : Option Nat :=
  match (if startsWithCI "https://".data s then
      (lazyScan doms (s.drop 8)).map (fun n => n + 8) else none) with
  | some n => some n
  | none =>
    if startsWithCI "http://".data s then
      (lazyScan doms (s.drop 7)).map (fun n => n + 7)
    else none

/-- The `findall` scan: left to right, emit each leftmost match, continue
after its end (fuel = input length bounds the number of scan steps). -/
def findAllGo (doms : List (List Char)) : Nat → List Char → List (List Char)
  | 0, _ => []
  | _ + 1, [] => []
  | fuel + 1, c :: rest =>
    match matchAt doms (c :: rest) with
    | some n => (c :: rest).take n :: findAllGo doms fuel ((c :: rest).drop n)
    | none => findAllGo doms fuel rest

def regex_findall (doms : List (List Char)) (s : String) : List String :=
  (findAllGo doms (s.data.length + 1) s.data).map (fun l => (⟨l⟩ : String))

/-- dl_terabox.py lines 80-83: `extract_terabox_links` (also terabox.py's
`LINK_REGEX.findall`, same pattern). -/
def extract_terabox_links (s : String) : List String :=
  if s.data.isEmpty then [] else regex_findall teraboxDomains s

/-- tbscraper.py lines 140-143: the scraper module's `extract_terabox_links`
(pattern with the extra `teraboxurl` domain). -/
def scraper_extract_terabox_links (s : String) : List String :=
  if s.data.isEmpty then [] else regex_findall scraperDomains s

/-- Python `list(dict.fromkeys(xs))`: keep the first occurrence of each
value, in order. -/
def dedupFirst : List String → List String
  | [] => []
  | x :: xs => x :: dedupFirst (xs.filter (fun y => !(y == x)))
termination_by l => l.length
decreasing_by
  simp only [List.length_cons]
  exact Nat.lt_succ_of_le (List.length_filter_le _ _)

/-- terabox.py line 592: `links = list(dict.fromkeys(LINK_REGEX.findall(text)))`. -/
def handle_message_links (s : String) : List String :=
  dedupFirst (regex_findall teraboxDomains s)

/-- Counterexample to claim C9: an input containing the same link twice —
both `extract_terabox_links` variants return it twice, so the extractor's
output is not deduplicated within a single input. -/
theorem c9_counterexample :
    extract_terabox_links "https://terabox.com/a https://terabox.com/a" =
      ["https://terabox.com/a", "https://terabox.com/a"] ∧
    ¬ (extract_terabox_links "https://terabox.com/a https://terabox.com/a").Nodup ∧
    scraper_extract_terabox_links "https://terabox.com/a https://terabox.com/a" =
      ["https://terabox.com/a", "https://terabox.com/a"] := by
  refine ⟨by decide, by decide, by decide⟩

end OpenTg

namespace OpenTg

theorem dedupFirst_sublist (l : List String) : (dedupFirst l).Sublist l := by
  induction l using dedupFirst.induct with
  | case1 => simp [dedupFirst]
  | case2 x xs ih =>
    rw [dedupFirst]
    exact List.Sublist.cons₂ x (ih.trans (List.filter_sublist xs))

theorem mem_dedupFirst (a : String) : ∀ l : List String, a ∈ dedupFirst l ↔ a ∈ l := by
  intro l
  induction l using dedupFirst.induct with
  | case1 => simp [dedupFirst]
  | case2 x xs ih =>
    rw [dedupFirst]
    constructor
    · intro h
      rcases List.mem_cons.mp h with h | h
      · exact h ▸ List.mem_cons_self _ _
      · have := ih.mp h
        exact List.mem_cons_of_mem _ (List.mem_of_mem_filter this)
    · intro h
      rcases List.mem_cons.mp h with h | h
      · exact h ▸ List.mem_cons_self _ _
      · by_cases hax : a = x
        · exact hax ▸ List.mem_cons_self _ _
        · refine List.mem_cons_of_mem _ (ih.mpr ?_)
          refine List.mem_filter.mpr ⟨h, ?_⟩
          simpa using hax

theorem dedupFirst_nodup (l : List String) : (dedupFirst l).Nodup := by
  induction l using dedupFirst.induct with
  | case1 => simp [dedupFirst]
  | case2 x xs ih =>
    rw [dedupFirst]
    refine List.nodup_cons.mpr ⟨?_, ih⟩
    intro hmem
    have := (mem_dedupFirst x _).mp hmem
    have hf := List.of_mem_filter this
    simp at hf

/-- Claim C9 as amended: the raw extractors return every pattern match in
order of appearance, duplicates included (see the counterexample); only
`handle_message` (terabox.py line 592) deduplicates — its link list has
no repeated value, is a subsequence of the raw match list (first
occurrences kept in order), and contains exactly the matched links. -/
theorem c9_amended_handler_dedups (s : String) :
    (handle_message_links s).Nodup ∧
    (handle_message_links s).Sublist (regex_findall teraboxDomains s) ∧
    (∀ l, l ∈ handle_message_links s ↔ l ∈ regex_findall teraboxDomains s) :=
  ⟨dedupFirst_nodup _, dedupFirst_sublist _, fun l => mem_dedupFirst l _⟩

end OpenTg
